import Mathlib

/-!
Shallow embedding of the pi-browser agent core (src/lib) in Lean 4.

Strings are modelled as `List Char` (`Str`) so that equality and the
string operations the code performs (concatenation, emptiness tests,
joins) are fully computable and proof-friendly.  JavaScript truthiness
of a string corresponds to non-emptiness of the list.

The embedding covers:
  * the data model of `types.ts` (Message, ToolCall, ToolResult,
    ToolDefinition, AgentEvent);
  * `skills.ts` (Skill, SkillRegistry);
  * `extensions.ts` (ExtensionRegistry: tool registration, event
    listener fan-out, user-input brokering);
  * `agent.ts` (Agent construction, the `tools` getter, `getMessages`,
    `prompt`, `abort`).
The streaming client `openrouter.ts` is not part of the sources; its
interaction with the conversation history is modelled from the spec as
an abstract trace of yielded events and round appends.
-/

namespace PiBrowser

/-- JavaScript strings, modelled as lists of characters. -/
abbrev Str := List Char

/-- Coerce a Lean string literal to the `Str` model. -/
def str (s : String) : Str := s.data

/-- Message roles (types.ts). -/
inductive Role where
  | user
  | assistant
  | system
deriving DecidableEq, Repr

/-- Result from executing a tool (types.ts `ToolResult`). -/
structure ToolResult where
  content : Str
  isError : Bool
deriving DecidableEq, Repr

/-- Tool-call arguments: the decoded JSON object, modelled as an
ordered association list from key to (string-rendered) value. -/
abbrev Args := List (Str × Str)

/-- A tool call requested by the model (types.ts `ToolCall`). -/
structure ToolCall where
  id : Str
  name : Str
  arguments : Args
  result : Option ToolResult := none
deriving DecidableEq, Repr

/-- A message in the conversation (types.ts `Message`). -/
structure Message where
  role : Role
  content : Str
  toolCalls : Option (List ToolCall) := none
deriving DecidableEq, Repr

/-- Definition of a tool the model can use (types.ts `ToolDefinition`).
`parameters` is a JSON schema in the source; only the declared
parameter names are relevant to any behavior here, so the schema is
modelled as that list.  `execute` is the (synchronously modelled)
execution function. -/
structure ToolDefinition where
  name : Str
  description : Str
  parameters : List Str
  execute : Args → ToolResult

/-- Events emitted during agent processing (types.ts `AgentEvent`). -/
inductive AgentEvent where
  | text_delta (delta : Str)
  | tool_call_start (toolCall : ToolCall)
  | tool_call_end (toolCall : ToolCall)
  | turn_end
  | error (err : Str)
deriving DecidableEq, Repr

/-- A skill: a named, on-demand instruction document (skills.ts). -/
structure Skill where
  name : Str
  description : Str
  content : Str
deriving DecidableEq, Repr

/-- `Array.prototype.join(sep)` on a list of strings. -/
def joinSep (sep : Str) : List Str → Str
  | [] => []
  | [x] => x
  | x :: y :: xs => x ++ sep ++ joinSep sep (y :: xs)

/-- The skill registry (skills.ts `SkillRegistry`).  The backing
`Map<string, Skill>` is modelled as the insertion-ordered list of its
values; `register` maintains uniqueness of names. -/
structure SkillRegistry where
  skills : List Skill
deriving DecidableEq, Repr

/-- Empty registry (`new SkillRegistry()`). -/
def SkillRegistry.empty : SkillRegistry := ⟨[]⟩

/-- `SkillRegistry.register`: skip (with a console warning) a skill
missing any required field — JS string truthiness, so "missing" is the
empty string — or whose name is already registered; otherwise insert. -/
def SkillRegistry.register (r : SkillRegistry) (s : Skill) : SkillRegistry :=
  if s.name.isEmpty || s.description.isEmpty || s.content.isEmpty then r
  else if r.skills.any (fun t => t.name == s.name) then r
  else ⟨r.skills ++ [s]⟩

/-- `SkillRegistry.registerAll`. -/
def SkillRegistry.registerAll (r : SkillRegistry) (ss : List Skill) : SkillRegistry :=
  ss.foldl SkillRegistry.register r

/-- `SkillRegistry.get`: lookup by name. -/
def SkillRegistry.get (r : SkillRegistry) (name : Str) : Option Skill :=
  r.skills.find? (fun t => t.name == name)

/-- `SkillRegistry.getAll`: all registered skills in insertion order. -/
def SkillRegistry.getAll (r : SkillRegistry) : List Skill :=
  r.skills

/-- One `<skill>` entry of the system-prompt fragment (skills.ts). -/
def entryFragment (s : Skill) : Str :=
  str "  <skill>\n    <name>" ++ s.name ++ str "</name>\n    <description>"
    ++ s.description ++ str "</description>\n  </skill>"

/-- Fixed text preceding the entries in the skills fragment. -/
def fragmentHeader : Str :=
  str "\nThe following skills provide specialized instructions for specific tasks.\nUse the read_skill tool to load a skill's full content when the task matches its description.\n\n<available_skills>\n"

/-- Fixed text following the entries in the skills fragment. -/
def fragmentFooter : Str :=
  str "\n</available_skills>"

/-- `SkillRegistry.systemPromptFragment`: empty when no skills are
registered, otherwise the header, the joined entries, and the footer. -/
def SkillRegistry.systemPromptFragment (r : SkillRegistry) : Str :=
  if r.getAll.isEmpty then []
  else fragmentHeader ++ joinSep (str "\n") (r.getAll.map entryFragment) ++ fragmentFooter

/-- `SkillRegistry.createReadSkillTool`: the `read_skill` tool. -/
def SkillRegistry.createReadSkillTool (r : SkillRegistry) : ToolDefinition where
  name := str "read_skill"
  description := str "Load the full content of a skill by name. Use this when a task matches an available skill's description."
  parameters := [str "name"]
  execute := fun args =>
    let name := ((args.find? (fun p => p.1 == str "name")).map Prod.snd).getD []
    match r.get name with
    | none =>
      let available := joinSep (str ", ") (r.getAll.map Skill.name)
      { content := str "Skill \"" ++ name ++ str "\" not found. Available skills: "
          ++ (if available.isEmpty then str "none" else available),
        isError := true }
    | some sk => { content := sk.content, isError := false }

/-- A form field of a user-input request (extensions.ts `UserInputField`). -/
inductive FieldType where
  | text
  | textarea
  | select
  | confirm
deriving DecidableEq, Repr

/-- extensions.ts `UserInputField`. -/
structure UserInputField where
  name : Str
  label : Str
  fieldType : FieldType
  placeholder : Option Str := none
  options : Option (List Str) := none
  defaultValue : Option Str := none
  required : Bool := false
deriving DecidableEq, Repr

/-- extensions.ts `UserInputRequest`. -/
structure UserInputRequest where
  question : Str
  description : Option Str := none
  fields : Option (List UserInputField) := none
deriving DecidableEq, Repr

/-- extensions.ts `UserInputResponse`: field name to string value. -/
abbrev UserInputResponse := List (Str × Str)

/-- The observable settlement state of a JavaScript promise.  `pending`
models a promise that has not settled (and may never settle). -/
inductive PromiseOutcome where
  | resolved (response : UserInputResponse)
  | rejected (err : Str)
  | pending
deriving DecidableEq, Repr

/-- An event listener subscribed through `api.on("agent_event", ...)`.
A listener is an arbitrary JavaScript closure: invoking it updates some
external state of type `σ` and possibly throws.  `run` returns the
state after the invocation's side effects together with the thrown
error, if any — a JavaScript exception does not roll back the side
effects already performed. -/
structure Listener (σ : Type) where
  run : AgentEvent → σ → σ × Option Str

/-- extensions.ts `ExtensionRegistry`: tools and listeners collected
from extensions, plus the user-input handler installed by the UI. -/
structure ExtensionRegistry (σ : Type) where
  tools : List ToolDefinition
  eventListeners : List (Listener σ)
  userInputHandler : Option (UserInputRequest → PromiseOutcome)

/-- `new ExtensionRegistry()`. -/
def emptyRegistry (σ : Type) : ExtensionRegistry σ :=
  { tools := [], eventListeners := [], userInputHandler := none }

/-- `api.registerTool(tool)`: `this.tools.push(tool)`. -/
def ExtensionRegistry.registerTool (r : ExtensionRegistry σ) (t : ToolDefinition) :
    ExtensionRegistry σ :=
  { r with tools := r.tools ++ [t] }

/-- `api.on("agent_event", handler)`: `this.eventListeners.push(handler)`. -/
def ExtensionRegistry.subscribe (r : ExtensionRegistry σ) (l : Listener σ) :
    ExtensionRegistry σ :=
  { r with eventListeners := r.eventListeners ++ [l] }

/-- `ExtensionRegistry.setUserInputHandler`. -/
def ExtensionRegistry.setUserInputHandler (r : ExtensionRegistry σ)
    (h : UserInputRequest → PromiseOutcome) : ExtensionRegistry σ :=
  { r with userInputHandler := some h }

/-- `ExtensionRegistry.getTools`: `[...this.tools]` (a fresh array with
the same elements, hence the same list value). -/
def ExtensionRegistry.getTools (r : ExtensionRegistry σ) : List ToolDefinition :=
  r.tools

/-- `api.requestUserInput(req)`: reject immediately when no handler is
installed, otherwise delegate to the handler's promise. -/
def ExtensionRegistry.requestUserInput (r : ExtensionRegistry σ)
    (req : UserInputRequest) : PromiseOutcome :=
  match r.userInputHandler with
  | none => .rejected (str "No user input handler registered")
  | some h => h req

/-- `ExtensionRegistry.emit`: `for (const listener of this.eventListeners)
listener(event)`.  There is no try/catch around the loop body, so a
listener's exception propagates out of `emit` and the remaining
listeners are not invoked. -/
def emitTo (e : AgentEvent) (s : σ) : List (Listener σ) → σ × Option Str
  | [] => (s, none)
  | l :: rest =>
    match l.run e s with
    | (s', none) => emitTo e s' rest
    | (s', some err) => (s', some err)

/-- `ExtensionRegistry.emit` on the registry's listener list. -/
def ExtensionRegistry.emit (r : ExtensionRegistry σ) (e : AgentEvent) (s : σ) :
    σ × Option Str :=
  emitTo e s r.eventListeners

-- ─── Extension loading ──────────────────────────────────────────────

/-- One capability call an extension performs against the API surface
it receives (`api.registerTool` / `api.on`). -/
inductive ExtAction (σ : Type) where
  | registerTool (t : ToolDefinition)
  | subscribe (l : Listener σ)

/-- The observable behavior of one extension function: the capability
calls it performs, and `fails = some err` when the function then throws
or rejects. -/
structure ExtModel (σ : Type) where
  actions : List (ExtAction σ)
  fails : Option Str := none

/-- Apply an extension's capability calls to the registry. -/
def applyActions (r : ExtensionRegistry σ) : List (ExtAction σ) → ExtensionRegistry σ
  | [] => r
  | .registerTool t :: rest => applyActions (r.registerTool t) rest
  | .subscribe l :: rest => applyActions (r.subscribe l) rest

/-- `ExtensionRegistry.load`: `for (const ext of extensions) await ext(api)`.
Extensions run in order; the first rejection rejects the whole `load`
promise and no later extension function is invoked.  Returns the
resulting registry, the settlement of the `load` promise, and the
number of extension functions that were invoked. -/
def loadExts (r : ExtensionRegistry σ) : List (ExtModel σ) →
    ExtensionRegistry σ × Except Str Unit × Nat
  | [] => (r, .ok (), 0)
  | ext :: rest =>
    let r' := applyActions r ext.actions
    match ext.fails with
    | some e => (r', .error e, 1)
    | none =>
      let out := loadExts r' rest
      (out.1, out.2.1, out.2.2 + 1)

-- ─── Agent ──────────────────────────────────────────────────────────

/-- agent.ts `AgentConfig`.  `expand` stands for the prompt-template
registry seeded from `config.promptTemplates`.
Modelled from the spec: prompt-templates.ts is not among the sources;
per the spec `expand(input)` returns the expanded body, or null when
the input is not a known slash command. -/
structure AgentConfig (σ : Type) where
  apiKey : Str
  model : Option Str := none
  systemPrompt : Option Str := none
  extensions : List (ExtModel σ) := []
  skills : List Skill := []
  expand : Str → Option Str := fun _ => none

/-- agent.ts `DEFAULT_SYSTEM_PROMPT`. -/
def defaultSystemPrompt : Str :=
  str "You are a helpful coding assistant running in a browser environment.\n\nYou have access to a virtual in-memory filesystem. You can read, write, edit, and list files.\nYou can also ask the user questions using the ask_user tool when you need clarification.\n\nWhen the user asks you to create or modify code, use the tools to do so.\nBe concise in your responses."

/-- agent.ts `Agent` state.  `readyState` is the settlement of the
`_ready` promise produced by extension loading; `inFlight` is whether
`abortController` is non-null. -/
structure Agent (σ : Type) where
  builtinTools : List ToolDefinition
  extensions : ExtensionRegistry σ
  skills : SkillRegistry
  messages : List Message
  readyState : Except Str Unit
  expand : Str → Option Str
  inFlight : Bool

/-- The system prompt the constructor builds: the base prompt (the
configured override or the default), extended by the skills fragment
only when that fragment is non-empty (JS string truthiness of
`skillFragment ? base + "\n" + skillFragment : base`). -/
def systemPromptOf (cfg : AgentConfig σ) : Str :=
  let base := cfg.systemPrompt.getD defaultSystemPrompt
  let fragment := (SkillRegistry.empty.registerAll cfg.skills).systemPromptFragment
  if fragment.isEmpty then base else base ++ str "\n" ++ fragment

/-- The agent constructor.  `createTools(this.fs)` lives in tools.ts,
which is not among the sources, so the built-in tool list enters the
model as the `builtins` parameter.  Skills are registered through the
registry (which filters invalid and duplicate entries); the system
prompt is built by `systemPromptOf`; extension loading begins at
construction and `readyState` records its settlement. -/
def agentInit (builtins : List ToolDefinition) (cfg : AgentConfig σ) : Agent σ :=
  let out := loadExts (emptyRegistry σ) cfg.extensions
  { builtinTools := builtins
    extensions := out.1
    skills := SkillRegistry.empty.registerAll cfg.skills
    messages := [{ role := .system, content := systemPromptOf cfg }]
    readyState := out.2.1
    expand := cfg.expand
    inFlight := false }

/-- agent.ts `get tools()`: builtins, then extension tools, then the
`read_skill` tool pushed when at least one skill is registered. -/
def Agent.tools (a : Agent σ) : List ToolDefinition :=
  let tools := a.builtinTools ++ a.extensions.getTools
  if a.skills.getAll.length > 0 then tools ++ [a.skills.createReadSkillTool]
  else tools

/-- agent.ts `getMessages()`: `[...this.messages]` — a fresh array with
the same elements; as a value, the same list.  (The aliasing of the
contained message objects is modelled separately below.) -/
def Agent.getMessages (a : Agent σ) : List Message :=
  a.messages

/-- agent.ts `abort()`: signals the active abort controller, if any.
The signal is observable only through the streaming client, whose
behavior enters the model as a `RunTrace`; no agent field changes. -/
def Agent.abortOp (a : Agent σ) : Agent σ :=
  a

-- ─── The streaming turn (`prompt`) ──────────────────────────────────

/-- One observable step of the `runAgent` stream during a turn.
Modelled from the spec: openrouter.ts `runAgent` is not among the
sources; per the spec it lazily yields `AgentEvent`s and, between
rounds, appends the round's assistant message (with its tool calls)
and one tool-result message per call to the history array it was
handed by reference. -/
inductive RunStep where
  | yieldEvent (e : AgentEvent)
  | appendHistory (msgs : List Message)

/-- The trace of one `runAgent` invocation: the steps that occurred, in
order, and `fail = some err` when the stream threw (transport failure
or abort) after those steps; `fail = none` is a stream that completed
normally. -/
structure RunTrace where
  steps : List RunStep
  fail : Option Str := none

/-- The `for await` body of `Agent.prompt`: walk the stream, appending
each `text_delta`'s delta to `fullResponse`, re-yielding every event,
and letting round appends mutate the shared history. -/
def promptLoop : List RunStep → List Message → Str → List AgentEvent →
    List Message × Str × List AgentEvent
  | [], msgs, full, evs => (msgs, full, evs)
  | .yieldEvent e :: rest, msgs, full, evs =>
    let full' := match e with
      | .text_delta d => full ++ d
      | _ => full
    promptLoop rest msgs full' (evs ++ [e])
  | .appendHistory ms :: rest, msgs, full, evs =>
    promptLoop rest (msgs ++ ms) full evs

/-- Outcome of one `prompt()` call: the agent afterwards, the events
the generator yielded to the caller (each was also broadcast to
extension listeners via `extensions.emit` just before being yielded),
and the generator's own settlement. -/
structure PromptOutcome (σ : Type) where
  agent : Agent σ
  events : List AgentEvent
  result : Except Str Unit

/-- agent.ts `prompt(text)`.  `await this._ready` first: if extension
loading failed, the generator rejects before expanding, before pushing
the user message, and before yielding anything.  Otherwise the text is
template-expanded, the user message is pushed, the stream is consumed
(accumulating `fullResponse` across every round), and on normal
completion a single assistant message is pushed iff the accumulated
text is non-empty.  The `finally` clears the abort controller in every
case. -/
def Agent.promptRun (a : Agent σ) (text : Str) (trace : RunTrace) :
    PromptOutcome σ :=
  match a.readyState with
  | .error e => { agent := a, events := [], result := .error e }
  | .ok () =>
    let finalText := (a.expand text).getD text
    let msgs0 := a.messages ++ [{ role := .user, content := finalText }]
    let out := promptLoop trace.steps msgs0 [] []
    match trace.fail with
    | some e =>
      { agent := { a with messages := out.1, inFlight := false }
        events := out.2.2
        result := .error e }
    | none =>
      let msgs2 := if out.2.1.isEmpty then out.1
        else out.1 ++ [{ role := .assistant, content := out.2.1 }]
      { agent := { a with messages := msgs2, inFlight := false }
        events := out.2.2
        result := .ok () }

/-- The operations a caller can perform on a live agent.  A `prompt`
operation carries the trace of the streaming client's behavior during
that turn. -/
inductive AgentOp where
  | prompt (text : Str) (trace : RunTrace)
  | abort
  | getMessages

/-- Apply one caller operation to the agent state. -/
def applyOp (a : Agent σ) : AgentOp → Agent σ
  | .prompt text trace => (a.promptRun text trace).agent
  | .abort => a.abortOp
  | .getMessages => a

/-- Run a sequence of caller operations. -/
def runOps (a : Agent σ) : List AgentOp → Agent σ
  | [] => a
  | op :: ops => runOps (applyOp a op) ops

-- ─── Derived views of a turn's trace ────────────────────────────────

/-- The events a trace yields, in order. -/
def yieldsOf : List RunStep → List AgentEvent
  | [] => []
  | .yieldEvent e :: rest => e :: yieldsOf rest
  | .appendHistory _ :: rest => yieldsOf rest

/-- The messages the rounds of a trace append to history, in order. -/
def roundAppends : List RunStep → List Message
  | [] => []
  | .yieldEvent _ :: rest => roundAppends rest
  | .appendHistory ms :: rest => ms ++ roundAppends rest

/-- Concatenation, in emission order, of the `delta` fields of the
`text_delta` events in a list. -/
def concatDeltas : List AgentEvent → Str
  | [] => []
  | .text_delta d :: rest => d ++ concatDeltas rest
  | _ :: rest => concatDeltas rest

-- ─── Logging listeners (for the fan-out analysis) ───────────────────

/-- A listener that records its identifier in a shared log when it is
invoked, and then throws when `fails` is set.  (The log entry is made
first: a JavaScript listener that throws has still been invoked.) -/
def mkLogger (p : Nat × Option Str) : Listener (List Nat) :=
  { run := fun _ log => (log ++ [p.1], p.2) }

/-- The listeners up to and including the first one that throws. -/
def upToFirstFail : List (Nat × Option Str) → List (Nat × Option Str)
  | [] => []
  | p :: rest =>
    match p.2 with
    | some _ => [p]
    | none => p :: upToFirstFail rest

/-- The error of the first throwing listener, if any. -/
def firstFail : List (Nat × Option Str) → Option Str
  | [] => none
  | p :: rest =>
    match p.2 with
    | some e => some e
    | none => firstFail rest

-- ─── Confirm-field call sites ───────────────────────────────────────

/-- UserInputForm.tsx initial form values: a `confirm` field starts at
`defaultValue ?? "no"`; a `select` field with non-empty options starts
at `defaultValue ?? options[0]`; otherwise `defaultValue ?? ""`. -/
def initialFieldValue (f : UserInputField) : Str :=
  match f.fieldType with
  | .confirm => f.defaultValue.getD (str "no")
  | .select =>
    match f.options with
    | some (o :: _) => f.defaultValue.getD o
    | _ => f.defaultValue.getD []
  | _ => f.defaultValue.getD []

/-- UserInputForm.tsx confirm toggle: the Yes button calls
`onChange("yes")`, the No button calls `onChange("no")`.  The argument
says which button was pressed. -/
def reactConfirmClick (yes : Bool) : Str :=
  if yes then str "yes" else str "no"

/-- examples/do-i-suck-at-math +page.svelte confirm checkbox: the
change handler stores `"true"` when checked and `"false"` otherwise. -/
def svelteConfirmChange (checked : Bool) : Str :=
  if checked then str "true" else str "false"

/-- +page.svelte checked binding: `formValues[field.name] === "true"`. -/
def svelteConfirmChecked (v : Str) : Bool :=
  v == str "true"

/-- The confirm-field renderers present in the system: the React form
component and the Svelte example, each mapping the user's choice to
the string stored in the `UserInputResponse`. -/
def confirmValueSites : List (Bool → Str) :=
  [reactConfirmClick, svelteConfirmChange]

-- ─── Reference semantics of `getMessages` ───────────────────────────

/-- A fragment of the JavaScript heap: an arena of arrays (lists of
message-object ids) and an arena of message objects.  This models the
reference semantics relevant to `getMessages()`: `[...this.messages]`
allocates a fresh array whose elements are the same object
references. -/
structure JsHeap where
  arrays : List (List Nat)
  msgObjs : List Message
deriving DecidableEq, Repr

/-- Placeholder for a dangling reference read. -/
def defaultMsg : Message := { role := .system, content := [] }

/-- An agent as seen through the heap: `messagesArr` is the id of the
array backing `this.messages`. -/
structure AgentRef where
  heap : JsHeap
  messagesArr : Nat
deriving DecidableEq, Repr

/-- Dereference an array id. -/
def readArray (h : JsHeap) (arrId : Nat) : List Nat :=
  h.arrays.getD arrId []

/-- Dereference a message-object id. -/
def readMsg (h : JsHeap) (objId : Nat) : Message :=
  h.msgObjs.getD objId defaultMsg

/-- The agent's internal conversation history, as message values. -/
def internalHistory (a : AgentRef) : List Message :=
  (readArray a.heap a.messagesArr).map (readMsg a.heap)

/-- `getMessages()` under reference semantics: allocate a fresh array
holding the same message-object ids and return its id. -/
def getMessagesRef (a : AgentRef) : AgentRef × Nat :=
  let ids := readArray a.heap a.messagesArr
  ({ a with heap := { a.heap with arrays := a.heap.arrays ++ [ids] } },
    a.heap.arrays.length)

/-- A caller mutation of the returned array itself (push, splice,
element assignment — any replacement of its contents). -/
def setArrayContents (a : AgentRef) (arrId : Nat) (ids : List Nat) : AgentRef :=
  { a with heap := { a.heap with arrays := a.heap.arrays.set arrId ids } }

/-- A caller mutation of a message object reachable through the
returned array (e.g. `snapshot[0].content = ...`). -/
def setMsgObj (a : AgentRef) (objId : Nat) (m : Message) : AgentRef :=
  { a with heap := { a.heap with msgObjs := a.heap.msgObjs.set objId m } }

/-- A concrete heap: an agent whose history is one system message. -/
def aliasDemoStore : AgentRef :=
  { heap :=
      { arrays := [[0]]
        msgObjs := [{ role := .system, content := str "base" }] }
    messagesArr := 0 }

-- ─── Ordered containment of text blocks ─────────────────────────────

/-- `occursInOrder parts s`: the given parts occur in `s`, in order,
as non-overlapping contiguous blocks. -/
def occursInOrder : List Str → Str → Prop
  | [], _ => True
  | p :: ps, s => ∃ pre rest, s = pre ++ p ++ rest ∧ occursInOrder ps rest

-- ════════════════════════════════════════════════════════════════════
-- Theorems
-- ════════════════════════════════════════════════════════════════════

-- ─── List helper lemmas ─────────────────────────────────────────────

theorem getD_append_lt {α : Type} (l l' : List α) (d : α) :
    ∀ i, i < l.length → (l ++ l').getD i d = l.getD i d := by
  induction l with
  | nil => intro i h; simp at h
  | cons a t ih =>
    intro i h
    cases i with
    | zero => rfl
    | succ j =>
      simp only [List.cons_append, List.getD_cons_succ]
      exact ih j (by simpa using h)

theorem getD_append_length {α : Type} (l : List α) (x : α) (d : α) :
    (l ++ [x]).getD l.length d = x := by
  induction l with
  | nil => rfl
  | cons a t ih => simp only [List.cons_append, List.length_cons, List.getD_cons_succ]; exact ih

theorem getD_set_ne {α : Type} (l : List α) (x : α) (d : α) :
    ∀ i j, i ≠ j → (l.set i x).getD j d = l.getD j d := by
  induction l with
  | nil => intro i j _; simp [List.set]
  | cons a t ih =>
    intro i j hne
    cases i with
    | zero =>
      cases j with
      | zero => exact absurd rfl hne
      | succ _ => rfl
    | succ i' =>
      cases j with
      | zero => rfl
      | succ j' =>
        simp only [List.set, List.getD_cons_succ]
        exact ih i' j' (fun h => hne (by rw [h]))

-- ─── occursInOrder lemmas ───────────────────────────────────────────

theorem occursInOrder_prepend (x : Str) {ps : List Str} {s : Str}
    (h : occursInOrder ps s) : occursInOrder ps (x ++ s) := by
  cases ps with
  | nil => trivial
  | cons p ps' =>
    obtain ⟨pre, rest, heq, hrest⟩ := h
    exact ⟨x ++ pre, rest, by rw [heq]; simp [List.append_assoc], hrest⟩

theorem occursInOrder_append_right {ps : List Str} {s : Str} (tail : Str)
    (h : occursInOrder ps s) : occursInOrder ps (s ++ tail) := by
  induction ps generalizing s with
  | nil => trivial
  | cons p ps' ih =>
    obtain ⟨pre, rest, heq, hrest⟩ := h
    exact ⟨pre, rest ++ tail, by rw [heq]; simp [List.append_assoc], ih hrest⟩

theorem occursInOrder_entry (s : Skill) {ps : List Str} {tail : Str}
    (h : occursInOrder ps tail) :
    occursInOrder (s.name :: s.description :: ps) (entryFragment s ++ tail) := by
  refine ⟨str "  <skill>\n    <name>",
    str "</name>\n    <description>" ++ (s.description
      ++ (str "</description>\n  </skill>" ++ tail)), ?_, ?_⟩
  · simp [entryFragment, List.append_assoc]
  · exact ⟨str "</name>\n    <description>", str "</description>\n  </skill>" ++ tail,
      by simp [List.append_assoc], occursInOrder_prepend _ h⟩

theorem occursInOrder_joined (skills : List Skill) :
    occursInOrder (skills.flatMap fun s => [s.name, s.description])
      (joinSep (str "\n") (skills.map entryFragment)) := by
  induction skills with
  | nil => trivial
  | cons s rest ih =>
    cases rest with
    | nil =>
      have h : occursInOrder [s.name, s.description] (entryFragment s ++ []) :=
        occursInOrder_entry s trivial
      simpa [joinSep] using h
    | cons s' rest' =>
      have h := occursInOrder_entry s
        (occursInOrder_prepend (str "\n") ih)
      simpa [joinSep, List.append_assoc] using h

theorem occursInOrder_fragment (r : SkillRegistry) (h : r.getAll ≠ []) :
    occursInOrder (r.getAll.flatMap fun s => [s.name, s.description])
      r.systemPromptFragment := by
  have hne : r.getAll.isEmpty = false := by
    cases hg : r.getAll with
    | nil => exact absurd hg h
    | cons a t => simp [hg]
  unfold SkillRegistry.systemPromptFragment
  rw [hne]
  simp only [Bool.false_eq_true, if_false]
  exact occursInOrder_prepend fragmentHeader
    (occursInOrder_append_right fragmentFooter (occursInOrder_joined r.getAll))

-- ─── Structure of the prompt loop ───────────────────────────────────

theorem promptLoop_eq (steps : List RunStep) :
    ∀ (msgs : List Message) (full : Str) (evs : List AgentEvent),
    promptLoop steps msgs full evs =
      (msgs ++ roundAppends steps,
       full ++ concatDeltas (yieldsOf steps),
       evs ++ yieldsOf steps) := by
  induction steps with
  | nil => intro msgs full evs; simp [promptLoop, roundAppends, yieldsOf, concatDeltas]
  | cons step rest ih =>
    intro msgs full evs
    cases step with
    | yieldEvent e =>
      cases e with
      | text_delta d =>
        simp [promptLoop, roundAppends, yieldsOf, concatDeltas, ih,
          List.append_assoc]
      | tool_call_start tc =>
        simp [promptLoop, roundAppends, yieldsOf, concatDeltas, ih,
          List.append_assoc]
      | tool_call_end tc =>
        simp [promptLoop, roundAppends, yieldsOf, concatDeltas, ih,
          List.append_assoc]
      | turn_end =>
        simp [promptLoop, roundAppends, yieldsOf, concatDeltas, ih,
          List.append_assoc]
      | error err =>
        simp [promptLoop, roundAppends, yieldsOf, concatDeltas, ih,
          List.append_assoc]
    | appendHistory ms =>
      simp [promptLoop, roundAppends, yieldsOf, ih, List.append_assoc]

-- ─── Tool registration and extension loading ────────────────────────

theorem registerTool_foldl {σ : Type} (ts : List ToolDefinition) :
    ∀ r : ExtensionRegistry σ,
    (ts.foldl ExtensionRegistry.registerTool r).tools = r.tools ++ ts := by
  induction ts with
  | nil => intro r; simp
  | cons t rest ih =>
    intro r
    simp only [List.foldl_cons, ih, ExtensionRegistry.registerTool,
      List.append_assoc, List.cons_append, List.nil_append]

theorem loadExts_first_failure {σ : Type} (pre : List (ExtModel σ))
    (bad : ExtModel σ) (post : List (ExtModel σ)) (err : Str)
    (hpre : ∀ e ∈ pre, e.fails = none) (hbad : bad.fails = some err) :
    ∀ r : ExtensionRegistry σ,
    (loadExts r (pre ++ bad :: post)).2.1 = .error err ∧
    (loadExts r (pre ++ bad :: post)).2.2 = pre.length + 1 := by
  induction pre with
  | nil =>
    intro r
    simp [loadExts, hbad]
  | cons e pre' ih =>
    intro r
    have he : e.fails = none := hpre e (List.mem_cons_self e pre')
    have ih' := ih (fun x hx => hpre x (List.mem_cons_of_mem e hx))
      (applyActions r e.actions)
    simp only [List.cons_append, loadExts, he]
    exact ⟨ih'.1, by simp [ih'.2]⟩

theorem loadExts_all_ok {σ : Type} (exts : List (ExtModel σ))
    (hok : ∀ e ∈ exts, e.fails = none) :
    ∀ r : ExtensionRegistry σ, (loadExts r exts).2.1 = .ok () := by
  induction exts with
  | nil => intro r; simp [loadExts]
  | cons e rest ih =>
    intro r
    have he : e.fails = none := hok e (List.mem_cons_self e rest)
    simp only [loadExts, he]
    exact ih (fun x hx => hok x (List.mem_cons_of_mem e hx)) _

-- ─── promptRun characterization ─────────────────────────────────────

theorem promptRun_notready {σ : Type} (a : Agent σ) (text : Str)
    (trace : RunTrace) (e : Str) (h : a.readyState = .error e) :
    a.promptRun text trace = { agent := a, events := [], result := .error e } := by
  simp only [Agent.promptRun, h]

theorem promptRun_ok_failed {σ : Type} (a : Agent σ) (text : Str)
    (trace : RunTrace) (e : Str)
    (hready : a.readyState = .ok ()) (hfail : trace.fail = some e) :
    a.promptRun text trace =
      { agent := { a with
          messages :=
            (a.messages ++ [{ role := .user, content := (a.expand text).getD text }])
              ++ roundAppends trace.steps
          inFlight := false }
        events := yieldsOf trace.steps
        result := .error e } := by
  simp only [Agent.promptRun, hready, hfail, promptLoop_eq, List.nil_append]

theorem promptRun_ok_completed {σ : Type} (a : Agent σ) (text : Str)
    (trace : RunTrace)
    (hready : a.readyState = .ok ()) (hfail : trace.fail = none) :
    a.promptRun text trace =
      { agent := { a with
          messages :=
            if (concatDeltas (yieldsOf trace.steps)).isEmpty then
              (a.messages ++ [{ role := .user, content := (a.expand text).getD text }])
                ++ roundAppends trace.steps
            else
              ((a.messages ++ [{ role := .user, content := (a.expand text).getD text }])
                ++ roundAppends trace.steps)
                ++ [{ role := .assistant, content := concatDeltas (yieldsOf trace.steps) }]
          inFlight := false }
        events := yieldsOf trace.steps
        result := .ok () } := by
  simp only [Agent.promptRun, hready, hfail, promptLoop_eq, List.nil_append]

-- ─── Operation sequences preserve structure ─────────────────────────

theorem promptRun_messages_extend {σ : Type} (a : Agent σ) (text : Str)
    (trace : RunTrace) :
    ∃ s, (a.promptRun text trace).agent.messages = a.messages ++ s := by
  cases hr : a.readyState with
  | error e => exact ⟨[], by rw [promptRun_notready a text trace e hr]; simp⟩
  | ok u =>
    cases u
    cases hf : trace.fail with
    | some e =>
      refine ⟨[{ role := .user, content := (a.expand text).getD text }]
        ++ roundAppends trace.steps, ?_⟩
      rw [promptRun_ok_failed a text trace e hr hf]
      simp [List.append_assoc]
    | none =>
      by_cases hfull : (concatDeltas (yieldsOf trace.steps)).isEmpty
      · refine ⟨[{ role := .user, content := (a.expand text).getD text }]
          ++ roundAppends trace.steps, ?_⟩
        rw [promptRun_ok_completed a text trace hr hf]
        simp [hfull, List.append_assoc]
      · refine ⟨([{ role := .user, content := (a.expand text).getD text }]
          ++ roundAppends trace.steps)
          ++ [{ role := .assistant, content := concatDeltas (yieldsOf trace.steps) }], ?_⟩
        rw [promptRun_ok_completed a text trace hr hf]
        simp [hfull, List.append_assoc]

theorem promptRun_readyState {σ : Type} (a : Agent σ) (text : Str)
    (trace : RunTrace) :
    (a.promptRun text trace).agent.readyState = a.readyState := by
  cases hr : a.readyState with
  | error e => rw [promptRun_notready a text trace e hr]; exact hr
  | ok u =>
    cases u
    cases hf : trace.fail with
    | some e => rw [promptRun_ok_failed a text trace e hr hf]; exact hr
    | none => rw [promptRun_ok_completed a text trace hr hf]; exact hr

theorem applyOp_messages_extend {σ : Type} (a : Agent σ) (op : AgentOp) :
    ∃ s, (applyOp a op).messages = a.messages ++ s := by
  cases op with
  | prompt text trace => exact promptRun_messages_extend a text trace
  | abort => exact ⟨[], by simp [applyOp, Agent.abortOp]⟩
  | getMessages => exact ⟨[], by simp [applyOp]⟩

theorem runOps_messages_extend {σ : Type} (ops : List AgentOp) :
    ∀ a : Agent σ, ∃ s, (runOps a ops).messages = a.messages ++ s := by
  induction ops with
  | nil => intro a; exact ⟨[], by simp [runOps]⟩
  | cons op rest ih =>
    intro a
    obtain ⟨s1, h1⟩ := applyOp_messages_extend a op
    obtain ⟨s2, h2⟩ := ih (applyOp a op)
    exact ⟨s1 ++ s2, by simp [runOps, h2, h1, List.append_assoc]⟩

theorem applyOp_readyState {σ : Type} (a : Agent σ) (op : AgentOp) :
    (applyOp a op).readyState = a.readyState := by
  cases op with
  | prompt text trace => exact promptRun_readyState a text trace
  | abort => rfl
  | getMessages => rfl

theorem runOps_readyState {σ : Type} (ops : List AgentOp) :
    ∀ a : Agent σ, (runOps a ops).readyState = a.readyState := by
  induction ops with
  | nil => intro a; rfl
  | cons op rest ih =>
    intro a
    rw [runOps, ih, applyOp_readyState]

-- ─── Claim C8 ───────────────────────────────────────────────────────

/-- C8: a `requestUserInput` call made while no user-input handler is
installed returns a promise that is immediately rejected with the
no-handler error; it is never left pending awaiting a handler that
does not exist. -/
theorem requestUserInput_no_handler_rejects {σ : Type}
    (r : ExtensionRegistry σ) (req : UserInputRequest)
    (h : r.userInputHandler = none) :
    r.requestUserInput req = .rejected (str "No user input handler registered") ∧
    r.requestUserInput req ≠ .pending := by
  refine ⟨by simp [ExtensionRegistry.requestUserInput, h], ?_⟩
  simp [ExtensionRegistry.requestUserInput, h]

/-- Witness for C8: a fresh registry has no handler, and a concrete
request is rejected with the no-handler error. -/
theorem requestUserInput_no_handler_rejects_witness :
    (emptyRegistry Unit).requestUserInput { question := str "Pick one" }
      = .rejected (str "No user input handler registered") ∧
    (emptyRegistry Unit).requestUserInput { question := str "Pick one" } ≠ .pending :=
  requestUserInput_no_handler_rejects (emptyRegistry Unit)
    { question := str "Pick one" } rfl

-- ─── Claim C2 ───────────────────────────────────────────────────────

/-- C2 counterexample: with two subscribed logging listeners where the
first throws, `emit` invokes only the first — the final log is `[0]`,
not `[0, 1]`, so the later-subscribed listener was never invoked with
the event, contrary to the claim. -/
theorem emit_throw_stops_fanout :
    (({ tools := []
        eventListeners := [mkLogger (0, some (str "boom")), mkLogger (1, none)]
        userInputHandler := none } : ExtensionRegistry (List Nat)).emit
        .turn_end []).1 = [0] ∧
    (({ tools := []
        eventListeners := [mkLogger (0, some (str "boom")), mkLogger (1, none)]
        userInputHandler := none } : ExtensionRegistry (List Nat)).emit
        .turn_end []).1 ≠ [0, 1] :=
  ⟨rfl, by decide⟩

/-- C2 (amended): `emit` invokes the subscribed listeners in
subscription order, each at most once, up to and including the first
listener that throws; that listener's exception propagates out of
`emit` and the listeners subscribed after it are not invoked.  When no
listener throws, every listener is invoked exactly once. -/
theorem emit_fanout_order (spec : List (Nat × Option Str)) (e : AgentEvent)
    (log0 : List Nat) :
    ({ tools := []
       eventListeners := spec.map mkLogger
       userInputHandler := none } : ExtensionRegistry (List Nat)).emit e log0
      = (log0 ++ (upToFirstFail spec).map Prod.fst, firstFail spec) := by
  unfold ExtensionRegistry.emit
  induction spec generalizing log0 with
  | nil => simp [emitTo, upToFirstFail, firstFail]
  | cons p rest ih =>
    cases hp : p.2 with
    | some err =>
      simp [emitTo, mkLogger, upToFirstFail, firstFail, hp]
    | none =>
      simp [emitTo, mkLogger, upToFirstFail, firstFail, hp, ih,
        List.append_assoc]

-- ─── Claim C3 ───────────────────────────────────────────────────────

/-- C3 counterexample: the Svelte example's confirm checkbox is a
confirm-field call site of the system, and checking it stores the
string `"true"`, which is neither `"yes"` nor `"no"` and differs from
what the React form stores for the same user choice. -/
theorem confirm_value_mismatch :
    svelteConfirmChange true ≠ str "yes" ∧
    svelteConfirmChange true ≠ str "no" ∧
    reactConfirmClick true ≠ svelteConfirmChange true ∧
    svelteConfirmChange ∈ confirmValueSites := by
  refine ⟨by decide, by decide, by decide, ?_⟩
  simp [confirmValueSites]

/-- C3 (amended): the React `UserInputForm` resolves confirm fields to
the literal strings `"yes"`/`"no"` (with initial value defaulting to
`"no"`), while the Svelte example resolves them to `"true"`/`"false"`
(reading them back with a `=== "true"` check); the two call sites use
different representations, so the representation is not the same
across the system. -/
theorem confirm_values_by_site (b : Bool) :
    (reactConfirmClick b = str "yes" ∨ reactConfirmClick b = str "no") ∧
    initialFieldValue
      { name := str "ok", label := str "Confirm", fieldType := .confirm }
      = str "no" ∧
    (svelteConfirmChange b = str "true" ∨ svelteConfirmChange b = str "false") ∧
    reactConfirmClick b ≠ svelteConfirmChange b ∧
    svelteConfirmChecked (svelteConfirmChange b) = b := by
  cases b with
  | false => exact ⟨Or.inr (by decide), by decide, Or.inr (by decide),
      by decide, by decide⟩
  | true => exact ⟨Or.inl (by decide), by decide, Or.inl (by decide),
      by decide, by decide⟩

-- ─── Claim C7 ───────────────────────────────────────────────────────

/-- C7: registering two skills with the same name leaves exactly one
skill of that name retrievable — the first one registered; the second
registration returns normally leaving the registry unchanged (a
warning, not an error); and registering a skill missing any required
field likewise leaves the registry unchanged. -/
theorem skill_duplicate_first_wins (r : SkillRegistry) (s1 s2 : Skill)
    (hname : s1.name ≠ []) (hdesc : s1.description ≠ [])
    (hcont : s1.content ≠ []) (hsame : s2.name = s1.name)
    (hfresh : r.get s1.name = none) :
    ((r.register s1).register s2).get s1.name = some s1 ∧
    ((r.register s1).register s2).skills.filter
      (fun t => t.name == s1.name) = [s1] ∧
    (r.register s1).register s2 = r.register s1 ∧
    ∀ (r2 : SkillRegistry) (s : Skill),
      s.name = [] ∨ s.description = [] ∨ s.content = [] →
      r2.register s = r2 := by
  have hnone : ∀ x ∈ r.skills, ¬ (x.name == s1.name) = true :=
    List.find?_eq_none.mp hfresh
  have hany : r.skills.any (fun t => t.name == s1.name) = false := by
    rw [List.any_eq_false]
    exact hnone
  have hn1 : (s1.name.isEmpty || s1.description.isEmpty
      || s1.content.isEmpty) = false := by
    simp [List.isEmpty_iff, hname, hdesc, hcont]
  have h1 : r.register s1 = ⟨r.skills ++ [s1]⟩ := by
    simp [SkillRegistry.register, hn1, hany]
  have h2 : (r.register s1).register s2 = r.register s1 := by
    rw [h1]
    cases hv : (s2.name.isEmpty || s2.description.isEmpty
        || s2.content.isEmpty) with
    | true => simp [SkillRegistry.register, hv]
    | false =>
      have hdup : (r.skills ++ [s1]).any (fun t => t.name == s2.name) = true := by
        simp [List.any_append, hsame]
      simp [SkillRegistry.register, hv, hdup]
  have hfind : r.skills.find? (fun t => t.name == s1.name) = none := hfresh
  refine ⟨?_, ?_, h2, ?_⟩
  · rw [h2, h1]
    simp [SkillRegistry.get, List.find?_append, hfind]
  · rw [h2, h1]
    have hfil : r.skills.filter (fun t => t.name == s1.name) = [] := by
      rw [List.filter_eq_nil_iff]
      exact hnone
    simp [List.filter_append, hfil]
  · intro r2 s h
    rcases h with h | h | h <;> simp [SkillRegistry.register, h]

/-- Witness for C7: concretely registering two skills named
`code-review` keeps the first one's content; an entry with an empty
description is skipped. -/
theorem skill_duplicate_first_wins_witness :
    ((SkillRegistry.empty.register
        { name := str "code-review", description := str "Reviews code",
          content := str "Original checklist" }).register
        { name := str "code-review", description := str "Other",
          content := str "Replacement" }).get (str "code-review")
      = some
        { name := str "code-review", description := str "Reviews code",
          content := str "Original checklist" } ∧
    ((SkillRegistry.empty.register
        { name := str "code-review", description := str "Reviews code",
          content := str "Original checklist" }).register
        { name := str "code-review", description := str "Other",
          content := str "Replacement" }).skills.filter
        (fun t => t.name == str "code-review")
      = [{ name := str "code-review", description := str "Reviews code",
           content := str "Original checklist" }] ∧
    SkillRegistry.empty.register
      { name := str "no-description", description := [], content := str "body" }
      = SkillRegistry.empty := by
  have h := skill_duplicate_first_wins SkillRegistry.empty
    { name := str "code-review", description := str "Reviews code",
      content := str "Original checklist" }
    { name := str "code-review", description := str "Other",
      content := str "Replacement" }
    (by decide) (by decide) (by decide) rfl rfl
  exact ⟨h.1, h.2.1, h.2.2.2 SkillRegistry.empty
    { name := str "no-description", description := [], content := str "body" }
    (Or.inr (Or.inl rfl))⟩

-- ─── Claim C1 ───────────────────────────────────────────────────────

/-- C1: when a `prompt()` call completes successfully (the stream ends
without throwing), the history afterwards is the prior history, the
turn's user message, whatever the rounds appended, and then exactly
one new assistant message whose content is the concatenation, in
emission order, of the deltas of every `text_delta` event yielded
during the call; when that concatenation is empty, no assistant
message is appended. -/
theorem prompt_appends_one_assistant {σ : Type} (a : Agent σ) (text : Str)
    (trace : RunTrace)
    (hready : a.readyState = .ok ()) (hok : trace.fail = none) :
    (a.promptRun text trace).result = .ok () ∧
    (a.promptRun text trace).events = yieldsOf trace.steps ∧
    (a.promptRun text trace).agent.getMessages =
      a.getMessages
        ++ [{ role := .user, content := (a.expand text).getD text }]
        ++ roundAppends trace.steps
        ++ (if concatDeltas (yieldsOf trace.steps) = [] then []
            else [{ role := .assistant,
                    content := concatDeltas (yieldsOf trace.steps) }]) := by
  rw [promptRun_ok_completed a text trace hready hok]
  refine ⟨rfl, rfl, ?_⟩
  by_cases hfull : concatDeltas (yieldsOf trace.steps) = []
  · simp [Agent.getMessages, hfull, List.append_assoc]
  · have hne : (concatDeltas (yieldsOf trace.steps)).isEmpty = false := by
      simpa [List.isEmpty_iff] using hfull
    simp [Agent.getMessages, hfull, hne, List.append_assoc]

set_option maxRecDepth 8192 in
/-- Witness for C1: a fresh agent, a stream of two text deltas and a
`turn_end`, completing successfully: exactly one assistant message
with the concatenated text is appended. -/
theorem prompt_appends_one_assistant_witness :
    ((agentInit [] ({ apiKey := str "k" } : AgentConfig Unit)).promptRun
        (str "hi")
        { steps := [.yieldEvent (.text_delta (str "Hel")),
                    .yieldEvent (.text_delta (str "lo")),
                    .yieldEvent .turn_end] }).result = .ok () ∧
    ((agentInit [] ({ apiKey := str "k" } : AgentConfig Unit)).promptRun
        (str "hi")
        { steps := [.yieldEvent (.text_delta (str "Hel")),
                    .yieldEvent (.text_delta (str "lo")),
                    .yieldEvent .turn_end] }).events =
      [.text_delta (str "Hel"), .text_delta (str "lo"), .turn_end] ∧
    ((agentInit [] ({ apiKey := str "k" } : AgentConfig Unit)).promptRun
        (str "hi")
        { steps := [.yieldEvent (.text_delta (str "Hel")),
                    .yieldEvent (.text_delta (str "lo")),
                    .yieldEvent .turn_end] }).agent.getMessages =
      [{ role := .system, content := defaultSystemPrompt },
       { role := .user, content := str "hi" },
       { role := .assistant, content := str "Hello" }] := by
  have h := prompt_appends_one_assistant
    (agentInit [] ({ apiKey := str "k" } : AgentConfig Unit)) (str "hi")
    { steps := [.yieldEvent (.text_delta (str "Hel")),
                .yieldEvent (.text_delta (str "lo")),
                .yieldEvent .turn_end] } rfl rfl
  refine ⟨h.1, ?_, ?_⟩
  · rw [h.2.1]
    rfl
  · rw [h.2.2]
    decide

-- ─── Claim C9 ───────────────────────────────────────────────────────

/-- C9: under every sequence of agent operations (construction,
prompt, abort, getMessages), the conversation history is non-empty
and its first element is the system message built at construction —
no operation removes or replaces it. -/
theorem history_first_system {σ : Type} (builtins : List ToolDefinition)
    (cfg : AgentConfig σ) (ops : List AgentOp) :
    (runOps (agentInit builtins cfg) ops).getMessages ≠ [] ∧
    (runOps (agentInit builtins cfg) ops).getMessages.head? =
      some { role := .system, content := systemPromptOf cfg } := by
  obtain ⟨s, hs⟩ := runOps_messages_extend ops (agentInit builtins cfg)
  have hinit : (agentInit builtins cfg).messages =
      [{ role := .system, content := systemPromptOf cfg }] := rfl
  constructor
  · simp [Agent.getMessages, hs, hinit]
  · simp [Agent.getMessages, hs, hinit]

-- ─── Claim C10 ──────────────────────────────────────────────────────

/-- C10: when an extension in the configured list throws during
loading, `ready()` settles rejected with that error, the extension
functions after the failing one are never invoked, and every
subsequent `prompt()` on the same agent — after any sequence of
further operations — rejects with that error before yielding any
event and before appending any message; the session never recovers. -/
theorem extension_failure_poisons_session {σ : Type}
    (builtins : List ToolDefinition) (cfg : AgentConfig σ)
    (pre post : List (ExtModel σ)) (bad : ExtModel σ) (err : Str)
    (hexts : cfg.extensions = pre ++ bad :: post)
    (hpre : ∀ e ∈ pre, e.fails = none) (hbad : bad.fails = some err)
    (ops : List AgentOp) (text : Str) (trace : RunTrace) :
    (agentInit builtins cfg).readyState = .error err ∧
    (loadExts (emptyRegistry σ) cfg.extensions).2.2 = pre.length + 1 ∧
    ((runOps (agentInit builtins cfg) ops).promptRun text trace).result
      = .error err ∧
    ((runOps (agentInit builtins cfg) ops).promptRun text trace).events = [] ∧
    ((runOps (agentInit builtins cfg) ops).promptRun text trace).agent.getMessages
      = (runOps (agentInit builtins cfg) ops).getMessages := by
  have hload := loadExts_first_failure pre bad post err hpre hbad (emptyRegistry σ)
  have h1 : (loadExts (emptyRegistry σ) cfg.extensions).2.1 = .error err := by
    rw [hexts]; exact hload.1
  have h2 : (loadExts (emptyRegistry σ) cfg.extensions).2.2 = pre.length + 1 := by
    rw [hexts]; exact hload.2
  have hready : (agentInit builtins cfg).readyState = .error err := h1
  have hrops : (runOps (agentInit builtins cfg) ops).readyState = .error err := by
    rw [runOps_readyState]; exact hready
  have hp := promptRun_notready (runOps (agentInit builtins cfg) ops)
    text trace err hrops
  exact ⟨hready, h2, by rw [hp], by rw [hp], by rw [hp]⟩

/-- Witness for C10: a three-extension list whose second extension
throws; two extension functions run, loading rejects, and a later
prompt (after an abort) rejects without touching history. -/
theorem extension_failure_poisons_session_witness :
    (agentInit [] ({ apiKey := str "k", extensions := [{ actions := [] }, { actions := [], fails := some (str "ext boom") }, { actions := [] }] } : AgentConfig Unit)).readyState
      = .error (str "ext boom") ∧
    (loadExts (emptyRegistry Unit)
        ({ apiKey := str "k", extensions := [{ actions := [] }, { actions := [], fails := some (str "ext boom") }, { actions := [] }] } : AgentConfig Unit).extensions).2.2
      = 2 ∧
    ((runOps (agentInit [] ({ apiKey := str "k", extensions := [{ actions := [] }, { actions := [], fails := some (str "ext boom") }, { actions := [] }] } : AgentConfig Unit)) [.abort]).promptRun
        (str "go") { steps := [] }).result = .error (str "ext boom") ∧
    ((runOps (agentInit [] ({ apiKey := str "k", extensions := [{ actions := [] }, { actions := [], fails := some (str "ext boom") }, { actions := [] }] } : AgentConfig Unit)) [.abort]).promptRun
        (str "go") { steps := [] }).events = [] ∧
    ((runOps (agentInit [] ({ apiKey := str "k", extensions := [{ actions := [] }, { actions := [], fails := some (str "ext boom") }, { actions := [] }] } : AgentConfig Unit)) [.abort]).promptRun
        (str "go") { steps := [] }).agent.getMessages
      = (runOps (agentInit [] ({ apiKey := str "k", extensions := [{ actions := [] }, { actions := [], fails := some (str "ext boom") }, { actions := [] }] } : AgentConfig Unit)) [.abort]).getMessages := by
  have h := extension_failure_poisons_session []
    ({ apiKey := str "k", extensions := [{ actions := [] }, { actions := [], fails := some (str "ext boom") }, { actions := [] }] } : AgentConfig Unit)
    [{ actions := [] }] [{ actions := [] }]
    { actions := [], fails := some (str "ext boom") } (str "ext boom")
    rfl
    (by intro e he; rw [List.mem_singleton] at he; rw [he])
    rfl [.abort] (str "go") { steps := [] }
  exact ⟨h.1, h.2.1, h.2.2.1, h.2.2.2.1, h.2.2.2.2⟩

-- ─── Claim C5 ───────────────────────────────────────────────────────

/-- C5: each access of the `tools` getter returns exactly the built-in
tools followed by the extension-registered tools — including tools
registered at any time after construction — with the `read_skill`
tool appended iff at least one skill is registered. -/
theorem agent_tools_composition {σ : Type} (a : Agent σ)
    (ts : List ToolDefinition) :
    (a.skills.getAll = [] →
      Agent.tools
        { a with extensions := ts.foldl ExtensionRegistry.registerTool a.extensions }
        = a.builtinTools ++ (a.extensions.getTools ++ ts)) ∧
    (a.skills.getAll ≠ [] →
      Agent.tools
        { a with extensions := ts.foldl ExtensionRegistry.registerTool a.extensions }
        = a.builtinTools ++ (a.extensions.getTools ++ ts)
          ++ [a.skills.createReadSkillTool]) := by
  have hreg : (ts.foldl ExtensionRegistry.registerTool a.extensions).tools
      = a.extensions.tools ++ ts := registerTool_foldl ts a.extensions
  constructor
  · intro h
    simp [Agent.tools, ExtensionRegistry.getTools, hreg, h, List.append_assoc]
  · intro h
    have hpos : 0 < a.skills.getAll.length := List.length_pos.mpr h
    simp [Agent.tools, ExtensionRegistry.getTools, hreg, hpos, List.append_assoc]

/-- Witness for C5: a skill-less agent's tool list is exactly the
registered extension tool; an agent with one skill additionally gets
`read_skill` appended after the extension tools. -/
theorem agent_tools_composition_witness :
    Agent.tools
      { agentInit [] ({ apiKey := str "k" } : AgentConfig Unit) with
        extensions :=
          [{ name := str "fetch_url", description := str "Fetch a URL", parameters := [str "url"], execute := fun _ => { content := str "ok", isError := false } }].foldl
            ExtensionRegistry.registerTool
            (agentInit [] ({ apiKey := str "k" } : AgentConfig Unit)).extensions }
      = (agentInit [] ({ apiKey := str "k" } : AgentConfig Unit)).builtinTools
        ++ ((agentInit [] ({ apiKey := str "k" } : AgentConfig Unit)).extensions.getTools
          ++ [{ name := str "fetch_url", description := str "Fetch a URL", parameters := [str "url"], execute := fun _ => { content := str "ok", isError := false } }]) ∧
    Agent.tools
      { agentInit [] ({ apiKey := str "k", skills := [{ name := str "code-review", description := str "Reviews code", content := str "Checklist" }] } : AgentConfig Unit) with
        extensions :=
          [{ name := str "fetch_url", description := str "Fetch a URL", parameters := [str "url"], execute := fun _ => { content := str "ok", isError := false } }].foldl
            ExtensionRegistry.registerTool
            (agentInit [] ({ apiKey := str "k", skills := [{ name := str "code-review", description := str "Reviews code", content := str "Checklist" }] } : AgentConfig Unit)).extensions }
      = (agentInit [] ({ apiKey := str "k", skills := [{ name := str "code-review", description := str "Reviews code", content := str "Checklist" }] } : AgentConfig Unit)).builtinTools
        ++ ((agentInit [] ({ apiKey := str "k", skills := [{ name := str "code-review", description := str "Reviews code", content := str "Checklist" }] } : AgentConfig Unit)).extensions.getTools
          ++ [{ name := str "fetch_url", description := str "Fetch a URL", parameters := [str "url"], execute := fun _ => { content := str "ok", isError := false } }])
        ++ [(agentInit [] ({ apiKey := str "k", skills := [{ name := str "code-review", description := str "Reviews code", content := str "Checklist" }] } : AgentConfig Unit)).skills.createReadSkillTool] := by
  constructor
  · exact (agent_tools_composition
      (agentInit [] ({ apiKey := str "k" } : AgentConfig Unit)) _).1 rfl
  · exact (agent_tools_composition
      (agentInit [] ({ apiKey := str "k", skills := [{ name := str "code-review", description := str "Reviews code", content := str "Checklist" }] } : AgentConfig Unit)) _).2
      (by decide)

-- ─── Claim C6 ───────────────────────────────────────────────────────

/-- C6: with zero registered skills the first history message's
content is exactly the base prompt (no fragment, no added
whitespace); with at least one registered skill it is the base prompt
followed by a fragment that contains each registered skill's name and
description in registration order. -/
theorem system_prompt_skill_fragment {σ : Type}
    (builtins : List ToolDefinition) (cfg : AgentConfig σ) :
    ((SkillRegistry.empty.registerAll cfg.skills).getAll = [] →
      (agentInit builtins cfg).getMessages =
        [{ role := .system,
           content := cfg.systemPrompt.getD defaultSystemPrompt }]) ∧
    ((SkillRegistry.empty.registerAll cfg.skills).getAll ≠ [] →
      (agentInit builtins cfg).getMessages =
        [{ role := .system,
           content := cfg.systemPrompt.getD defaultSystemPrompt
             ++ str "\n"
             ++ (SkillRegistry.empty.registerAll cfg.skills).systemPromptFragment }] ∧
      occursInOrder
        ((SkillRegistry.empty.registerAll cfg.skills).getAll.flatMap
          (fun s => [s.name, s.description]))
        (SkillRegistry.empty.registerAll cfg.skills).systemPromptFragment) := by
  constructor
  · intro h
    simp [Agent.getMessages, agentInit, systemPromptOf,
      SkillRegistry.systemPromptFragment, h]
  · intro h
    have hne : (SkillRegistry.empty.registerAll cfg.skills).getAll.isEmpty = false := by
      cases hg : (SkillRegistry.empty.registerAll cfg.skills).getAll with
      | nil => exact absurd hg h
      | cons x t => simp [hg]
    have hfrag : (SkillRegistry.empty.registerAll cfg.skills).systemPromptFragment
        = fragmentHeader
          ++ joinSep (str "\n")
            ((SkillRegistry.empty.registerAll cfg.skills).getAll.map entryFragment)
          ++ fragmentFooter := by
      simp [SkillRegistry.systemPromptFragment, hne]
    have hfragne : (SkillRegistry.empty.registerAll cfg.skills).systemPromptFragment
        ≠ [] := by
      rw [hfrag]
      intro heq
      rw [List.append_eq_nil, List.append_eq_nil] at heq
      exact absurd heq.1.1 (by decide)
    refine ⟨?_, occursInOrder_fragment _ h⟩
    have hfe : ((SkillRegistry.empty.registerAll cfg.skills).systemPromptFragment).isEmpty
        = false := by
      cases hg : (SkillRegistry.empty.registerAll cfg.skills).systemPromptFragment with
      | nil => exact absurd hg hfragne
      | cons x t => simp [hg]
    simp [Agent.getMessages, agentInit, systemPromptOf, hfe]

/-- Witness for C6: a configuration with no skills yields exactly the
default base prompt; a configuration with one `code-review` skill
yields the base prompt, a newline, and a fragment containing the
skill's name and description. -/
theorem system_prompt_skill_fragment_witness :
    (agentInit [] ({ apiKey := str "k" } : AgentConfig Unit)).getMessages =
      [{ role := .system, content := defaultSystemPrompt }] ∧
    ((agentInit [] ({ apiKey := str "k", systemPrompt := some (str "You review code."), skills := [{ name := str "code-review", description := str "Reviews diffs", content := str "Checklist" }] } : AgentConfig Unit)).getMessages =
      [{ role := .system,
           content := str "You review code." ++ str "\n"
           ++ (SkillRegistry.empty.registerAll
                [{ name := str "code-review", description := str "Reviews diffs", content := str "Checklist" }]).systemPromptFragment }] ∧
      occursInOrder
        ((SkillRegistry.empty.registerAll
            [{ name := str "code-review", description := str "Reviews diffs", content := str "Checklist" }]).getAll.flatMap
          (fun s => [s.name, s.description]))
        (SkillRegistry.empty.registerAll
          [{ name := str "code-review", description := str "Reviews diffs", content := str "Checklist" }]).systemPromptFragment) := by
  constructor
  · exact (system_prompt_skill_fragment []
      ({ apiKey := str "k" } : AgentConfig Unit)).1 rfl
  · exact (system_prompt_skill_fragment []
      ({ apiKey := str "k", systemPrompt := some (str "You review code."), skills := [{ name := str "code-review", description := str "Reviews diffs", content := str "Checklist" }] } : AgentConfig Unit)).2
      (by decide)

-- ─── Claim C4 ───────────────────────────────────────────────────────

/-- C4 counterexample: `getMessages()` copies the array but shares the
message objects; mutating the message object reached through the
returned snapshot's first element changes the agent's internal
history, contrary to the claim that no mutation of the returned value
can do so. -/
theorem getMessages_alias_mutation :
    internalHistory
      (setMsgObj (getMessagesRef aliasDemoStore).1
        ((readArray (getMessagesRef aliasDemoStore).1.heap
          (getMessagesRef aliasDemoStore).2).getD 0 0)
        { role := .system, content := str "mutated" })
      ≠ internalHistory aliasDemoStore := by
  decide

/-- C4 (amended): `getMessages()` returns a fresh array whose contents
equal the internal history, and mutating the returned array itself
(replacing its contents) does not change the internal history — but
the message objects are shared, so mutating them does (see the
counterexample). -/
theorem getMessages_shallow_copy (a : AgentRef)
    (hwf : a.messagesArr < a.heap.arrays.length) :
    (readArray (getMessagesRef a).1.heap (getMessagesRef a).2).map
      (readMsg (getMessagesRef a).1.heap) = internalHistory a ∧
    (getMessagesRef a).2 ≠ a.messagesArr ∧
    internalHistory (getMessagesRef a).1 = internalHistory a ∧
    ∀ ids, internalHistory
      (setArrayContents (getMessagesRef a).1 (getMessagesRef a).2 ids)
      = internalHistory a := by
  refine ⟨?_, ?_, ?_, ?_⟩
  · show ((a.heap.arrays ++ [readArray a.heap a.messagesArr]).getD
        a.heap.arrays.length []).map (readMsg a.heap) = internalHistory a
    rw [getD_append_length]
    rfl
  · exact Nat.ne_of_gt hwf
  · show ((a.heap.arrays ++ [readArray a.heap a.messagesArr]).getD
        a.messagesArr []).map (readMsg a.heap) = internalHistory a
    rw [getD_append_lt _ _ _ _ hwf]
    rfl
  · intro ids
    show (((a.heap.arrays ++ [readArray a.heap a.messagesArr]).set
        a.heap.arrays.length ids).getD a.messagesArr []).map (readMsg a.heap)
      = internalHistory a
    rw [getD_set_ne _ _ _ _ _ (Nat.ne_of_gt hwf)]
    rw [getD_append_lt _ _ _ _ hwf]
    rfl

/-- Witness for C4 (amended) on the concrete demo store. -/
theorem getMessages_shallow_copy_witness :
    (readArray (getMessagesRef aliasDemoStore).1.heap
      (getMessagesRef aliasDemoStore).2).map
      (readMsg (getMessagesRef aliasDemoStore).1.heap)
      = internalHistory aliasDemoStore ∧
    (getMessagesRef aliasDemoStore).2 ≠ aliasDemoStore.messagesArr ∧
    internalHistory (getMessagesRef aliasDemoStore).1
      = internalHistory aliasDemoStore ∧
    internalHistory (setArrayContents (getMessagesRef aliasDemoStore).1
      (getMessagesRef aliasDemoStore).2 []) = internalHistory aliasDemoStore := by
  have h := getMessages_shallow_copy aliasDemoStore (by decide)
  exact ⟨h.1, h.2.1, h.2.2.1, h.2.2.2 []⟩

end PiBrowser
